import Mathlib

/-!
Verification of the Reservation & Waitlist Engine of the TrainManagement
repository (src/tempCodeRunnerFile.cpp) against its natural-language
specification.

Shallow embedding conventions:
* C++ `std::string` is modelled as `List Char` (named `Str`).
* C++ `int` / `long long` are modelled as `Int` (no overflow is exercised by
  the program's ranges).
* Fares are C++ `double`s, but the program only ever produces and consumes
  integral fare values (baseFare times a passenger count, serialized by
  `to_string` with six zero decimals); fares are therefore modelled as exact
  `Int` values and the float rendering as the digits followed by ".000000".
* The console output, the transaction journal and file I/O carry no live
  state (the journal is never read back), so they are dropped; the payment
  gate outcome is an explicit `Bool` parameter.
* `std::stringstream` + `getline` field splitting is modelled by
  `cppGetlineFields`, which reproduces getline's treatment of trailing
  delimiters (a trailing delimiter does not yield a final empty field).
-/

abbrev Str := List Char

/-- One splitting pass: split a character list at every occurrence of `c`
(the plain `std::getline`-style split except for the trailing-delimiter
behaviour, handled by `cppGetlineFields`). -/
def splitOnChar (c : Char) : Str → List Str
  | [] => [[]]
  | x :: xs =>
    let r := splitOnChar c xs
    if x = c then [] :: r
    else
      match r with
      | [] => [[x]]
      | y :: ys => (x :: y) :: ys

/-- Field extraction as performed by `while (getline(ss, segment, c))`:
an empty input yields no fields, and a trailing delimiter does not yield a
trailing empty field. -/
def cppGetlineFields (s : Str) (c : Char) : List Str :=
  match s with
  | [] => []
  | _ =>
    let ps := splitOnChar c s
    if s.getLast? = some c then ps.dropLast else ps

/-- Leading decimal digits of a string. -/
def leadingDigits (s : Str) : Str := s.takeWhile (fun c => c.isDigit)

/-- Numeric value of a digit string. -/
def digitsToNat (ds : Str) : Nat := ds.foldl (fun a c => a * 10 + (c.toNat - 48)) 0

/-- Model of C++ `stoi`/`stoll` on the strings this program feeds it: parses
an optional minus sign followed by leading decimal digits; `none` models the
`std::invalid_argument` exception thrown when no digits are present. -/
def stoiModel (s : Str) : Option Int :=
  match s with
  | '-' :: rest =>
    let ds := leadingDigits rest
    if ds = [] then none else some (-(digitsToNat ds : Int))
  | _ =>
    let ds := leadingDigits s
    if ds = [] then none else some ((digitsToNat ds : Nat) : Int)

/-- Model of C++ `stod` on the fare strings this program produces: every fare
written by the program is an integral double rendered as digits followed by
".000000", so the leading integer part fully determines the value; `none`
models the exception on a string with no leading digits. -/
def stodModel (s : Str) : Option Int := stoiModel s

/-- Character of a single decimal digit. -/
def digitChar (n : Nat) : Char := Char.ofNat (48 + n)

/-- Decimal rendering of a natural number, fuelled (24 digits suffice for
every value the program manipulates). -/
def natToStrAux : Nat → Nat → Str
  | 0, _ => []
  | fuel + 1, n =>
    if n < 10 then [digitChar n]
    else natToStrAux fuel (n / 10) ++ [digitChar (n % 10)]

def natToStr (n : Nat) : Str := natToStrAux 24 n

/-- Model of C++ `to_string` on an integer value. -/
def intToStr (i : Int) : Str :=
  if i < 0 then '-' :: natToStr i.natAbs else natToStr i.toNat

/-- Model of C++ `to_string(double)` on the integral fares the program uses:
six zero decimals. -/
def fareToStr (f : Int) : Str := intToStr f ++ ".000000".data

/-- `isValidDate` from the source: exactly 10 characters, slashes at
positions 2 and 5, digits elsewhere, month in [1,12], day in [1,31]. -/
def isValidDate : Str → Bool
  | [m1, m2, a, d1, d2, b, y1, y2, y3, y4] =>
    a = '/' && b = '/' &&
    m1.isDigit && m2.isDigit && d1.isDigit && d2.isDigit &&
    y1.isDigit && y2.isDigit && y3.isDigit && y4.isDigit &&
    (let mo := 10 * (m1.toNat - 48) + (m2.toNat - 48)
     let da := 10 * (d1.toNat - 48) + (d2.toNat - 48)
     decide (1 ≤ mo) && decide (mo ≤ 12) && decide (1 ≤ da) && decide (da ≤ 31))
  | _ => false

/-- Booking status literals used by the source. -/
def sConfirmed : Str := "Confirmed".data

def sWaitlist : Str := "Waitlist".data

def sCancelled : Str := "Cancelled".data

-- ### Passenger

structure Passenger where
  name : Str
  age : Int
  gender : Str
deriving DecidableEq

/-- `Passenger::serialize`: `Name|Age|Gender`. -/
def Passenger.serialize (p : Passenger) : Str :=
  p.name ++ '|' :: intToStr p.age ++ '|' :: p.gender

-- ### SeatAllocation and Train

structure SeatAllocation where
  date : Str
  availableSeats : Int
deriving DecidableEq

/-- The parts of `Train` that carry reservation state; display-only fields
(name, route, pantry flag) are omitted. -/
structure Train where
  trainNumber : Str
  totalSeats : Int
  baseFare : Int
  seatMap : List SeatAllocation
deriving DecidableEq

/-- First seat-map entry for a date, mirroring the linear scans in
`getAvailableSeats` / `bookSeat` / `cancelSeat`. -/
def lookupAlloc (sm : List SeatAllocation) (date : Str) : Option SeatAllocation :=
  match sm with
  | [] => none
  | a :: rest => if a.date = date then some a else lookupAlloc rest date

/-- `Train::getAvailableSeats`: returns the stored count for the date, or
materializes an unseen valid date at full capacity (returning the updated
train), or returns -1 on an invalid date. -/
def Train.getAvailableSeats (t : Train) (date : Str) : Int × Train :=
  match lookupAlloc t.seatMap date with
  | some a => (a.availableSeats, t)
  | none =>
    if isValidDate date then
      (t.totalSeats, { t with seatMap := t.seatMap ++ [⟨date, t.totalSeats⟩] })
    else (-1, t)

/-- The seat-map loop of `Train::bookSeat`: acts on the first entry matching
the date; `none` when the date is absent. -/
def bookSeatAux (date : Str) (count : Int) :
    List SeatAllocation → Option (Bool × List SeatAllocation)
  | [] => none
  | a :: rest =>
    if a.date = date then
      if a.availableSeats ≥ count then
        some (true, { a with availableSeats := a.availableSeats - count } :: rest)
      else some (false, a :: rest)
    else
      match bookSeatAux date count rest with
      | some (ok, rest') => some (ok, a :: rest')
      | none => none

/-- `Train::bookSeat`: decrement if the date entry has enough seats, refuse
otherwise; an unseen valid date is materialized pre-decremented when the
count fits the total capacity. -/
def Train.bookSeat (t : Train) (date : Str) (count : Int) : Bool × Train :=
  match bookSeatAux date count t.seatMap with
  | some (ok, sm) => (ok, { t with seatMap := sm })
  | none =>
    if isValidDate date && decide (count ≤ t.totalSeats) then
      (true, { t with seatMap := t.seatMap ++ [⟨date, t.totalSeats - count⟩] })
    else (false, t)

/-- The seat-map loop of `Train::cancelSeat`: increments the first entry
matching the date, clamped to the total capacity; no entry is created. -/
def cancelSeatAux (total : Int) (date : Str) (count : Int) :
    List SeatAllocation → List SeatAllocation
  | [] => []
  | a :: rest =>
    if a.date = date then
      (let v := a.availableSeats + count
       { a with availableSeats := if v > total then total else v }) :: rest
    else a :: cancelSeatAux total date count rest

/-- `Train::cancelSeat`. -/
def Train.cancelSeat (t : Train) (date : Str) (count : Int) : Train :=
  { t with seatMap := cancelSeatAux t.totalSeats date count t.seatMap }

/-- Pure observation of the availability a caller would see for a date:
the stored count, full capacity for an unseen valid date, -1 otherwise.
(`Train.getAvailableSeats` returns exactly this value.) -/
def availObs (t : Train) (date : Str) : Int :=
  match lookupAlloc t.seatMap date with
  | some a => a.availableSeats
  | none => if isValidDate date then t.totalSeats else -1

-- ### WaitlistEntry and Booking

structure WaitlistEntry where
  pnr : Str
  date : Str
  numSeats : Int
  rank : Int
deriving DecidableEq

structure Booking where
  pnrNumber : Str
  trainNumber : Str
  dateOfJourney : Str
  passengers : List Passenger
  totalFare : Int
  status : Str
deriving DecidableEq

/-- The default-constructed `Booking()` returned on deserialization failure. -/
def Booking.empty : Booking := ⟨[], [], [], [], 0, []⟩

/-- `Booking::setStatus` — a bare assignment, no validation. -/
def Booking.setStatus (b : Booking) (newStatus : Str) : Booking :=
  { b with status := newStatus }

/-- `Booking::getNumPassengers`. -/
def Booking.getNumPassengers (b : Booking) : Int := (b.passengers.length : Int)

/-- `Booking::serialize`:
`PNR|TrainNum|Date|Fare|Status|PassengerCount|PassengerData`, passengers
joined by `&` (the trailing `&` is popped, i.e. intercalation). -/
def Booking.serialize (b : Booking) : Str :=
  let pData := List.intercalate ['&'] (b.passengers.map Passenger.serialize)
  List.intercalate ['|']
    [b.pnrNumber, b.trainNumber, b.dateOfJourney, fareToStr b.totalFare,
     b.status, intToStr (b.passengers.length : Int), pData]

/-- The passenger loop of `Booking::deserialize`: consumes up to `pcount`
`&`-separated segments; a segment that does not split into exactly three
`|`-separated parts is skipped silently, while a `stoi` failure on the age
(`none`) aborts the whole booking (the C++ catch block). -/
def deserializePassengers : Nat → List Str → Option (List Passenger)
  | 0, _ => some []
  | _ + 1, [] => some []
  | k + 1, seg :: rest =>
    let pparts := cppGetlineFields seg '|'
    if h : pparts.length = 3 then
      match stoiModel (pparts.get ⟨1, by omega⟩) with
      | none => none
      | some age =>
        (deserializePassengers k rest).map
          (fun ps => ⟨pparts.get ⟨0, by omega⟩, age, pparts.get ⟨2, by omega⟩⟩ :: ps)
    else deserializePassengers k rest

/-- `Booking::deserialize`: splits the whole record on `|`, requires at least
seven fields, then parses fare, status, passenger count and the passenger
list; any parse exception yields the default booking. -/
def Booking.deserialize (data : Str) : Booking :=
  let parts := cppGetlineFields data '|'
  if parts.length < 7 then Booking.empty
  else
    match stodModel (parts.getD 3 []), stoiModel (parts.getD 5 []) with
    | some fare, some pcount =>
      let psegs := cppGetlineFields (parts.getD 6 []) '&'
      match deserializePassengers pcount.toNat psegs with
      | some ps =>
        ⟨parts.getD 0 [], parts.getD 1 [], parts.getD 2 [], ps, fare, parts.getD 4 []⟩
      | none => Booking.empty
    | _, _ => Booking.empty

-- ### PNRGenerator

/-- The configured floor of the PNR counter (the in-class initializer). -/
def pnrFloor : Int := 100000000000

/-- `PNRGenerator::loadPNR`: `none` models a missing, empty or unparsable
counter file (the constructor default / the catch-block reset); a stored
value below the floor is clamped up to the floor. -/
def loadPNR (stored : Option Int) : Int :=
  let c := match stored with
           | some v => v
           | none => pnrFloor
  if c < pnrFloor then pnrFloor else c

/-- Repeated `PNRGenerator::generate`: issues `k` successive PNR values from
counter `c`, returning the issued values in order and the final counter
(which `generate` persists synchronously after each issue). -/
def issueN (c : Int) : Nat → List Int × Int
  | 0 => ([], c)
  | k + 1 =>
    let r := issueN (c + 1) k
    ((c + 1) :: r.1, r.2)

/-- One process run: load the stored counter, then perform `k` generates. -/
def genRun (stored : Option Int) (k : Nat) : List Int × Int :=
  issueN (loadPNR stored) k

-- ### RailwayManager state and helpers

/-- The live reservation state held by `RailwayManager`: trains, the booking
ledger, the per-`TrainNum|Date` waitlist map (total function, empty queue by
default, matching `std::map::operator[]`), and the PNR counter. Users, the
payment gateway and the journal carry no reservation state. -/
structure RailwayState where
  trains : List Train
  bookings : List Booking
  waitlist : Str → List WaitlistEntry
  pnrCounter : Int

/-- `RailwayManager::findTrain`: first train with the given number. -/
def findTrain (ts : List Train) (tNum : Str) : Option Train :=
  match ts with
  | [] => none
  | t :: rest => if t.trainNumber = tNum then some t else findTrain rest tNum

/-- Writing back through the `Train*` returned by `findTrain`: replace the
first train carrying the updated train's number. -/
def updateTrain (ts : List Train) (t' : Train) : List Train :=
  match ts with
  | [] => []
  | t :: rest =>
    if t.trainNumber = t'.trainNumber then t' :: rest
    else t :: updateTrain rest t'

/-- `RailwayManager::findBooking`: first ledger record with the given PNR. -/
def findBooking (bs : List Booking) (pnr : Str) : Option Booking :=
  match bs with
  | [] => none
  | b :: rest => if b.pnrNumber = pnr then some b else findBooking rest pnr

/-- Writing back through the `Booking*` returned by `findBooking` (or the
iterator in `cancelBooking`): set the status of the first record with the
given PNR. -/
def setBookingStatus (bs : List Booking) (pnr newStatus : Str) : List Booking :=
  match bs with
  | [] => []
  | b :: rest =>
    if b.pnrNumber = pnr then b.setStatus newStatus :: rest
    else b :: setBookingStatus rest pnr newStatus

/-- The waitlist map key `TrainNum|Date`. -/
def wlKey (tNum date : Str) : Str := tNum ++ '|' :: date

/-- `RailwayManager::placeOnWaitlist`: rank 1 on an empty queue, else the
last entry's rank plus one; appends the entry at the tail of that key's
queue and reports the assigned rank. -/
def placeOnWaitlist (w : Str → List WaitlistEntry) (b : Booking) :
    Int × (Str → List WaitlistEntry) :=
  let key := wlKey b.trainNumber b.dateOfJourney
  let q := w key
  let rank := match q.getLast? with
              | none => 1
              | some e => e.rank + 1
  let entry : WaitlistEntry := ⟨b.pnrNumber, b.dateOfJourney, b.getNumPassengers, rank⟩
  (rank, Function.update w key (q ++ [entry]))

-- ### Waitlist promotion

/-- Running state of the promotion loop in `RailwayManager::promoteWaitlist`:
the remaining seat counter, the retained entries built up so far, the ledger
and train as mutated through pointers, and whether anything was promoted. -/
structure PromoteAcc where
  seatsToPromote : Int
  remainingWL : List WaitlistEntry
  bookings : List Booking
  train : Train
  promoted : Bool
deriving DecidableEq

/-- One iteration of the promotion loop: an entry that fits the remaining
counter and references an existing Waitlist booking is promoted (booking set
Confirmed, seats committed via `bookSeat`, counter decremented, entry
dropped); on an unexpected `bookSeat` failure it is retained; an entry that
fits but references a missing or non-Waitlist booking is silently dropped;
an entry that does not fit is retained. -/
def promoteStep (date : Str) (acc : PromoteAcc) (e : WaitlistEntry) : PromoteAcc :=
  if acc.seatsToPromote ≥ e.numSeats then
    match findBooking acc.bookings e.pnr with
    | some b =>
      if b.status = sWaitlist then
        let r := acc.train.bookSeat date e.numSeats
        if r.1 then
          { seatsToPromote := acc.seatsToPromote - e.numSeats
            remainingWL := acc.remainingWL
            bookings := setBookingStatus acc.bookings e.pnr sConfirmed
            train := r.2
            promoted := true }
        else { acc with remainingWL := acc.remainingWL ++ [e], train := r.2 }
      else acc
    | none => acc
  else { acc with remainingWL := acc.remainingWL ++ [e] }

/-- Result of one promotion pass. -/
structure PromoteResult where
  bookings : List Booking
  train : Train
  queue : List WaitlistEntry
  promoted : Bool
deriving DecidableEq

/-- `RailwayManager::promoteWaitlist` for one `(train, date)` key: early
return on an empty queue or a non-positive seat counter; otherwise a single
pass of `promoteStep` over the queue in FIFO order, and the key's queue is
replaced by the retained entries only when at least one entry was promoted. -/
def promoteWaitlist (date : Str) (train : Train) (availableSeats : Int)
    (bookings : List Booking) (queue : List WaitlistEntry) : PromoteResult :=
  if queue = [] ∨ availableSeats ≤ 0 then ⟨bookings, train, queue, false⟩
  else
    let acc := queue.foldl (promoteStep date) ⟨availableSeats, [], bookings, train, false⟩
    if acc.promoted then ⟨acc.bookings, acc.train, acc.remainingWL, true⟩
    else ⟨acc.bookings, acc.train, queue, false⟩

-- ### Engine operations

/-- `RailwayManager::cancelBooking`. Confirmed: release the seats, re-read
availability (materializing the date if unseen), run the promotion pass for
the key, then set the record Cancelled (the 80% refund is fire-and-forget
and carries no state). Waitlist: set the record Cancelled (100% refund,
fire-and-forget); the waitlist map is not touched. Any other status, a
missing PNR, or a missing train: no state change. -/
def cancelBooking (s : RailwayState) (pnr : Str) : RailwayState :=
  match findBooking s.bookings pnr with
  | none => s
  | some b =>
    if b.status = sConfirmed then
      match findTrain s.trains b.trainNumber with
      | some t =>
        let t1 := t.cancelSeat b.dateOfJourney b.getNumPassengers
        let ra := t1.getAvailableSeats b.dateOfJourney
        let key := wlKey ra.2.trainNumber b.dateOfJourney
        let r := promoteWaitlist b.dateOfJourney ra.2 ra.1 s.bookings (s.waitlist key)
        { s with
          trains := updateTrain s.trains r.train
          bookings := setBookingStatus r.bookings pnr sCancelled
          waitlist := if r.promoted then Function.update s.waitlist key r.queue
                      else s.waitlist }
      | none => s
    else if b.status = sWaitlist then
      { s with bookings := setBookingStatus s.bookings pnr sCancelled }
    else s

/-- `RailwayManager::bookSingleTicket` with the external payment gate's
verdict passed in as `paySucceeds`. A PNR is issued (counter incremented and
persisted) before the capacity check; on a declined payment the operation
returns with no ledger record, no reservation and no waitlist entry. -/
def bookSingleTicket (paySucceeds : Bool) (s : RailwayState)
    (tNum date : Str) (passengers : List Passenger) : RailwayState :=
  match findTrain s.trains tNum with
  | none => s
  | some t =>
    let n : Int := (passengers.length : Int)
    let fare := t.baseFare * n
    let pnrC := s.pnrCounter + 1
    let pnr := intToStr pnrC
    let ra := t.getAvailableSeats date
    let s1 := { s with trains := updateTrain s.trains ra.2, pnrCounter := pnrC }
    if ra.1 ≥ n then
      if paySucceeds then
        let rb := ra.2.bookSeat date n
        let nb : Booking := ⟨pnr, tNum, date, passengers, fare, sConfirmed⟩
        { s1 with trains := updateTrain s.trains rb.2, bookings := s1.bookings ++ [nb] }
      else s1
    else
      if paySucceeds then
        let nb : Booking := ⟨pnr, tNum, date, passengers, fare, sWaitlist⟩
        let w' := (placeOnWaitlist s1.waitlist nb).2
        { s1 with bookings := s1.bookings ++ [nb], waitlist := w' }
      else s1

/-- Availability of a `(train, date)` pair as observed through the train
list (`none` when the train does not exist). -/
def trainAvail (ts : List Train) (tNum date : Str) : Option Int :=
  (findTrain ts tNum).map (fun t => availObs t date)

-- ### Operation sequences over the seat inventory

/-- A reserve/release request against one train's calendar. -/
inductive SeatOp where
  | reserve (date : Str) (count : Int)
  | release (date : Str) (count : Int)

/-- Seat count carried by an operation. -/
def SeatOp.count : SeatOp → Int
  | .reserve _ c => c
  | .release _ c => c

def applySeatOp (t : Train) : SeatOp → Train
  | .reserve d c => (t.bookSeat d c).2
  | .release d c => t.cancelSeat d c

def applySeatOps (t : Train) (ops : List SeatOp) : Train :=
  ops.foldl applySeatOp t

/-- The seat-inventory invariant: every materialized date entry holds a
count in `[0, totalSeats]`. -/
def SeatInv (t : Train) : Prop :=
  ∀ a ∈ t.seatMap, 0 ≤ a.availableSeats ∧ a.availableSeats ≤ t.totalSeats

instance : DecidablePred SeatInv := fun t =>
  inferInstanceAs (Decidable (∀ a ∈ t.seatMap, _ ∧ _))

-- ### Concrete fixtures used by the theorems below

def dJan : Str := "01/01/2030".data

def tnET : Str := "ET001".data

def keyET : Str := wlKey tnET dJan

def pAlice : Passenger := ⟨"Alice".data, 30, "F".data⟩

/-- C4 scenario: a train with two remaining seats on the date. -/
def c4Train : Train := ⟨tnET, 10, 55, [⟨dJan, 2⟩]⟩

/-- C4 scenario: waitlisted booking A. -/
def c4BookA : Booking := ⟨"P1".data, tnET, dJan, [], 165, sWaitlist⟩

/-- C4 scenario: waitlisted booking B. -/
def c4BookB : Booking := ⟨"P2".data, tnET, dJan, [], 55, sWaitlist⟩

/-- C4 scenario: entry A needs 3 seats, rank 1. -/
def c4EntryA : WaitlistEntry := ⟨"P1".data, dJan, 3, 1⟩

/-- C4 scenario: entry B needs 1 seat, rank 2. -/
def c4EntryB : WaitlistEntry := ⟨"P2".data, dJan, 1, 2⟩

/-- C1 scenario: a live waitlisted booking with its queue entry. -/
def c1Booking : Booking := ⟨"P1".data, tnET, dJan, [pAlice], 55, sWaitlist⟩

def c1Entry : WaitlistEntry := ⟨"P1".data, dJan, 1, 1⟩

def c1State : RailwayState :=
  ⟨[⟨tnET, 10, 55, [⟨dJan, 10⟩]⟩], [c1Booking],
   Function.update (fun _ => []) keyET [c1Entry], 5⟩

/-- C2 counterexample fixture: a record already Cancelled. -/
def c2Booking : Booking := ⟨"P9".data, tnET, dJan, [], 55, sCancelled⟩

def c2State : RailwayState := ⟨[], [c2Booking], fun _ => [], 5⟩

/-- C8 fixture: a booking with one passenger. -/
def c8Booking : Booking :=
  ⟨"100000000001".data, tnET, dJan, [pAlice], 55, sConfirmed⟩

/-- C6 fixture: a state with one train. -/
def c6State : RailwayState := ⟨[⟨tnET, 10, 55, [⟨dJan, 4⟩]⟩], [], fun _ => [], 5⟩

/-- C7 fixture: a queue at the key whose last entry has rank 2. -/
def c7Queue : Str → List WaitlistEntry :=
  Function.update (fun _ => []) keyET [⟨"P1".data, dJan, 2, 2⟩]

def c7Booking : Booking := ⟨"P2".data, tnET, dJan, [pAlice], 55, sWaitlist⟩

-- ### Helper lemmas: seat inventory

theorem bookSeat_totalSeats (t : Train) (d : Str) (c : Int) :
    ((t.bookSeat d c).2).totalSeats = t.totalSeats := by
  unfold Train.bookSeat
  rcases h : bookSeatAux d c t.seatMap with _ | ⟨ok, sm⟩ <;> simp
  split <;> rfl

theorem cancelSeat_totalSeats (t : Train) (d : Str) (c : Int) :
    (t.cancelSeat d c).totalSeats = t.totalSeats := rfl

theorem bookSeatAux_inv (date : Str) (c : Int) (total : Int) (hc : 0 ≤ c) :
    ∀ sm : List SeatAllocation,
      (∀ a ∈ sm, 0 ≤ a.availableSeats ∧ a.availableSeats ≤ total) →
      ∀ ok sm', bookSeatAux date c sm = some (ok, sm') →
      ∀ a ∈ sm', 0 ≤ a.availableSeats ∧ a.availableSeats ≤ total := by
  intro sm
  induction sm with
  | nil => intro _ ok sm' h; simp [bookSeatAux] at h
  | cons a rest ih =>
    intro hinv ok sm' h
    unfold bookSeatAux at h
    by_cases hd : a.date = date
    · rw [if_pos hd] at h
      by_cases hge : a.availableSeats ≥ c
      · rw [if_pos hge] at h
        obtain ⟨rfl, rfl⟩ := Prod.mk.injEq .. ▸ Option.some.injEq .. ▸ h
        intro x hx
        rcases List.mem_cons.mp hx with rfl | hx
        · constructor
          · simpa using Int.sub_nonneg.mpr hge
          · have := (hinv a (List.mem_cons_self a rest)).2
            simpa using le_trans (Int.sub_le_self _ hc) this
        · exact hinv x (List.mem_cons_of_mem a hx)
      · rw [if_neg hge] at h
        obtain ⟨rfl, rfl⟩ := Prod.mk.injEq .. ▸ Option.some.injEq .. ▸ h
        exact hinv
    · rw [if_neg hd] at h
      rcases hr : bookSeatAux date c rest with _ | ⟨ok2, rest'⟩
      · rw [hr] at h; simp at h
      · rw [hr] at h
        obtain ⟨rfl, rfl⟩ := Prod.mk.injEq .. ▸ Option.some.injEq .. ▸ h
        intro x hx
        rcases List.mem_cons.mp hx with rfl | hx
        · exact hinv x (List.mem_cons_self x rest)
        · exact ih (fun y hy => hinv y (List.mem_cons_of_mem a hy)) ok2 rest' hr x hx

theorem bookSeat_inv (t : Train) (d : Str) (c : Int)
    (_ht : 0 ≤ t.totalSeats) (hc : 0 ≤ c) (hinv : SeatInv t) :
    SeatInv (t.bookSeat d c).2 := by
  unfold Train.bookSeat
  rcases h : bookSeatAux d c t.seatMap with _ | ⟨ok, sm⟩
  · by_cases hcond : isValidDate d && decide (c ≤ t.totalSeats)
    · rw [if_pos hcond]
      intro a ha
      rcases List.mem_append.mp ha with ha | ha
      · exact hinv a ha
      · have hct : c ≤ t.totalSeats := by
          have := (Bool.and_eq_true ..).mp hcond
          exact of_decide_eq_true this.2
        rcases List.mem_singleton.mp ha with rfl
        exact ⟨Int.sub_nonneg.mpr hct, le_trans (Int.sub_le_self _ hc) le_rfl⟩
    · rw [if_neg hcond]; exact hinv
  · exact fun a ha => bookSeatAux_inv d c t.totalSeats hc t.seatMap hinv ok sm h a ha

theorem cancelSeatAux_inv (date : Str) (c total : Int) (ht : 0 ≤ total) (hc : 0 ≤ c) :
    ∀ sm : List SeatAllocation,
      (∀ a ∈ sm, 0 ≤ a.availableSeats ∧ a.availableSeats ≤ total) →
      ∀ a ∈ cancelSeatAux total date c sm,
        0 ≤ a.availableSeats ∧ a.availableSeats ≤ total := by
  intro sm
  induction sm with
  | nil => intro _ a ha; simp [cancelSeatAux] at ha
  | cons a rest ih =>
    intro hinv x hx
    unfold cancelSeatAux at hx
    by_cases hd : a.date = date
    · rw [if_pos hd] at hx
      rcases List.mem_cons.mp hx with rfl | hx
      · by_cases hgt : a.availableSeats + c > total
        · simp only [if_pos hgt]; exact ⟨ht, le_rfl⟩
        · simp only [if_neg hgt]
          refine ⟨?_, not_lt.mp hgt⟩
          have := (hinv a (List.mem_cons_self a rest)).1
          positivity
      · exact hinv x (List.mem_cons_of_mem a hx)
    · rw [if_neg hd] at hx
      rcases List.mem_cons.mp hx with rfl | hx
      · exact hinv x (List.mem_cons_self x rest)
      · exact ih (fun y hy => hinv y (List.mem_cons_of_mem a hy)) x hx

theorem cancelSeat_inv (t : Train) (d : Str) (c : Int)
    (ht : 0 ≤ t.totalSeats) (hc : 0 ≤ c) (hinv : SeatInv t) :
    SeatInv (t.cancelSeat d c) :=
  fun a ha => cancelSeatAux_inv d c t.totalSeats ht hc t.seatMap hinv a ha

theorem applySeatOp_totalSeats (t : Train) (op : SeatOp) :
    (applySeatOp t op).totalSeats = t.totalSeats := by
  cases op with
  | reserve d c => exact bookSeat_totalSeats t d c
  | release d c => exact cancelSeat_totalSeats t d c

theorem applySeatOp_inv (t : Train) (op : SeatOp)
    (ht : 0 ≤ t.totalSeats) (hc : 0 ≤ op.count) (hinv : SeatInv t) :
    SeatInv (applySeatOp t op) := by
  cases op with
  | reserve d c => exact bookSeat_inv t d c ht hc hinv
  | release d c => exact cancelSeat_inv t d c ht hc hinv

theorem bookSeatAux_refuse (date : Str) (c : Int) :
    ∀ sm : List SeatAllocation, ∀ a,
      lookupAlloc sm date = some a → a.availableSeats < c →
      bookSeatAux date c sm = some (false, sm) := by
  intro sm
  induction sm with
  | nil => intro a h; simp [lookupAlloc] at h
  | cons x rest ih =>
    intro a h hlt
    unfold lookupAlloc at h
    unfold bookSeatAux
    by_cases hd : x.date = date
    · rw [if_pos hd] at h ⊢
      rcases Option.some.injEq .. ▸ h with rfl
      rw [if_neg (not_le.mpr hlt)]
    · rw [if_neg hd] at h ⊢
      rw [ih a h hlt]

theorem cancelSeatAux_not_found (total : Int) (date : Str) (c : Int) :
    ∀ sm : List SeatAllocation, lookupAlloc sm date = none →
      cancelSeatAux total date c sm = sm := by
  intro sm
  induction sm with
  | nil => intro _; rfl
  | cons a rest ih =>
    intro h
    unfold lookupAlloc at h
    unfold cancelSeatAux
    by_cases hd : a.date = date
    · rw [if_pos hd] at h; simp at h
    · rw [if_neg hd] at h ⊢
      rw [ih h]

theorem cancelSeatAux_dates (total : Int) (date : Str) (c : Int) :
    ∀ sm : List SeatAllocation,
      (cancelSeatAux total date c sm).map SeatAllocation.date =
        sm.map SeatAllocation.date := by
  intro sm
  induction sm with
  | nil => rfl
  | cons a rest ih =>
    unfold cancelSeatAux
    by_cases hd : a.date = date
    · rw [if_pos hd]; simp
    · rw [if_neg hd]; simp [ih]

/-- C3: starting from any train whose calendar satisfies the bound, any
finite sequence of reserve (`bookSeat`) and release (`cancelSeat`)
operations with nonnegative counts keeps every date's `availableSeats` in
`[0, totalSeats]`; moreover reserve refuses (returns false and leaves the
train unchanged) when the date entry holds fewer seats than requested. -/
theorem c3_inventory_bounds :
    (∀ (t : Train) (ops : List SeatOp), 0 ≤ t.totalSeats → SeatInv t →
      (∀ op ∈ ops, 0 ≤ op.count) → SeatInv (applySeatOps t ops)) ∧
    (∀ (t : Train) (d : Str) (c : Int) (a : SeatAllocation),
      lookupAlloc t.seatMap d = some a → a.availableSeats < c →
      t.bookSeat d c = (false, t)) := by
  constructor
  · intro t ops
    induction ops generalizing t with
    | nil => intro _ hinv _; exact hinv
    | cons op rest ih =>
      intro ht hinv hops
      have h1 : SeatInv (applySeatOp t op) :=
        applySeatOp_inv t op ht (hops op (List.mem_cons_self op rest)) hinv
      have h2 : 0 ≤ (applySeatOp t op).totalSeats := by
        rw [applySeatOp_totalSeats]; exact ht
      exact ih (applySeatOp t op) h2 h1
        (fun o ho => hops o (List.mem_cons_of_mem op ho))
  · intro t d c a h hlt
    unfold Train.bookSeat
    rw [bookSeatAux_refuse d c t.seatMap a h hlt]

/-- Witness for `c3_inventory_bounds`: the bound holds after a concrete
mixed sequence that exercises refusal, materialization and clamping, and
reserve concretely refuses on a short entry. -/
theorem c3_inventory_bounds_instance :
    SeatInv (applySeatOps ⟨tnET, 2, 50, [⟨dJan, 1⟩]⟩
      [.reserve dJan 2, .release dJan 4, .reserve dJan 2]) ∧
    Train.bookSeat ⟨tnET, 2, 50, [⟨dJan, 1⟩]⟩ dJan 2 =
      (false, ⟨tnET, 2, 50, [⟨dJan, 1⟩]⟩) :=
  ⟨c3_inventory_bounds.1 ⟨tnET, 2, 50, [⟨dJan, 1⟩]⟩ _ (by decide) (by decide) (by decide),
   c3_inventory_bounds.2 ⟨tnET, 2, 50, [⟨dJan, 1⟩]⟩ dJan 2 ⟨dJan, 1⟩ (by decide) (by decide)⟩

/-- C10: `cancelSeat` (release) on a date that has never been materialized
is a no-op — the train is returned unchanged, no calendar entry is created;
and in general release never adds or removes date entries. -/
theorem c10_release_no_materialize :
    (∀ (t : Train) (d : Str) (c : Int), lookupAlloc t.seatMap d = none →
      t.cancelSeat d c = t) ∧
    (∀ (t : Train) (d : Str) (c : Int),
      ((t.cancelSeat d c).seatMap).map SeatAllocation.date =
        t.seatMap.map SeatAllocation.date) := by
  constructor
  · intro t d c h
    unfold Train.cancelSeat
    rw [cancelSeatAux_not_found t.totalSeats d c t.seatMap h]
  · intro t d c
    exact cancelSeatAux_dates t.totalSeats d c t.seatMap

/-- Witness for `c10_release_no_materialize`: releasing on an unseen valid
date leaves a concrete train untouched. -/
theorem c10_release_no_materialize_instance :
    Train.cancelSeat ⟨tnET, 10, 55, [⟨dJan, 4⟩]⟩ "02/02/2030".data 3 =
      ⟨tnET, 10, 55, [⟨dJan, 4⟩]⟩ :=
  c10_release_no_materialize.1 ⟨tnET, 10, 55, [⟨dJan, 4⟩]⟩ "02/02/2030".data 3 (by decide)

/-- C1: the claim says cancelling a Waitlist booking removes its entry from
the live waitlist queue. The code does not: in the concrete state below the
engine's `cancelBooking` sets the booking Cancelled (and refunds 100%,
fire-and-forget) but the `WaitlistEntry` is still present in the queue for
its `(train, date)` key afterwards, so a later promotion pass does observe
it. This contradicts the code's own comment ("Remove from waitlist map"). -/
theorem c1_waitlist_cancel_leaves_stale_entry :
    (cancelBooking c1State ("P1".data)).waitlist keyET = [c1Entry] ∧
    findBooking (cancelBooking c1State ("P1".data)).bookings ("P1".data) =
      some (c1Booking.setStatus sCancelled) ∧
    c1Entry ∈ (cancelBooking c1State ("P1".data)).waitlist keyET := by
  refine ⟨?_, ?_, ?_⟩ <;> decide

/-- C2 counterexample: `Booking::setStatus` enforces nothing — it moves a
Cancelled record (instead of rejecting and leaving it unchanged) and happily
sets Waitlist on an existing record. -/
theorem c2_setStatus_no_lattice_check :
    Booking.setStatus c2Booking sConfirmed ≠ c2Booking ∧
    (Booking.setStatus c2Booking sConfirmed).status = sConfirmed ∧
    (Booking.setStatus c2Booking sWaitlist).status = sWaitlist := by
  refine ⟨?_, ?_, ?_⟩ <;> decide

/-- C2 amended: `setStatus` unconditionally overwrites the status field; the
lattice is enforced only at the engine level, where `cancelBooking` leaves
the whole state unchanged whenever the record's status is neither Confirmed
nor Waitlist (in particular a Cancelled record is reported as already
cancelled and not touched). -/
theorem c2_engine_guard :
    (∀ (b : Booking) (ns : Str), (Booking.setStatus b ns).status = ns) ∧
    (∀ (s : RailwayState) (pnr : Str) (b : Booking),
      findBooking s.bookings pnr = some b →
      b.status ≠ sConfirmed → b.status ≠ sWaitlist →
      cancelBooking s pnr = s) := by
  constructor
  · intro b ns; rfl
  · intro s pnr b hfind hc hw
    unfold cancelBooking
    rw [hfind]
    simp only [if_neg hc, if_neg hw]

/-- Witness for `c2_engine_guard`: cancelling the already-Cancelled concrete
record changes nothing. -/
theorem c2_engine_guard_instance :
    (Booking.setStatus c2Booking sConfirmed).status = sConfirmed ∧
    cancelBooking c2State ("P9".data) = c2State :=
  ⟨c2_engine_guard.1 c2Booking sConfirmed,
   c2_engine_guard.2 c2State ("P9".data) c2Booking (by decide) (by decide) (by decide)⟩

/-- C8: the claim says deserializing a serialized booking restores the
passenger list. It does not: `Booking::deserialize` splits the whole record
on the field delimiter `|`, which also occurs inside the serialized
passenger data, so the passenger segment it sees is just the first
passenger's name and every passenger fails the three-part check — the
round-trip of the concrete one-passenger booking below returns the booking
with an empty passenger list. -/
theorem c8_roundtrip_loses_passengers :
    Booking.deserialize (Booking.serialize c8Booking) =
      { c8Booking with passengers := [] } ∧
    Booking.deserialize (Booking.serialize c8Booking) ≠ c8Booking := by
  refine ⟨?_, ?_⟩ <;> decide

/-- C5 counterexample: the first run (empty counter storage) issues PNR
`pnrFloor + 1`; after a restart in which the storage reads back 5 (below the
floor) the counter is clamped up only to the floor, and the very next
generate issues `pnrFloor + 1` again — a PNR already issued in the earlier
run, refuting strict increase across restarts. -/
theorem c5_pnr_reissued_after_storage_wipe :
    (genRun none 1).1 = [pnrFloor + 1] ∧
    ((5 : Int) < pnrFloor) ∧
    (genRun (some 5) 1).1 = [pnrFloor + 1] ∧
    pnrFloor + 1 ∈ (genRun none 1).1 ∧
    pnrFloor + 1 ∈ (genRun (some 5) 1).1 := by
  refine ⟨?_, ?_, ?_, ?_, ?_⟩ <;> decide

-- ### Helper lemmas: promotion pass

theorem promoteStep_promote (date : Str) (acc : PromoteAcc) (e : WaitlistEntry)
    (b : Booking) (h1 : acc.seatsToPromote ≥ e.numSeats)
    (hb : findBooking acc.bookings e.pnr = some b) (hs : b.status = sWaitlist)
    (hok : (acc.train.bookSeat date e.numSeats).1 = true) :
    promoteStep date acc e =
      ⟨acc.seatsToPromote - e.numSeats, acc.remainingWL,
       setBookingStatus acc.bookings e.pnr sConfirmed,
       (acc.train.bookSeat date e.numSeats).2, true⟩ := by
  simp [promoteStep, h1, hb, hs, hok]

theorem promoteStep_bookfail (date : Str) (acc : PromoteAcc) (e : WaitlistEntry)
    (b : Booking) (h1 : acc.seatsToPromote ≥ e.numSeats)
    (hb : findBooking acc.bookings e.pnr = some b) (hs : b.status = sWaitlist)
    (hok : (acc.train.bookSeat date e.numSeats).1 = false) :
    promoteStep date acc e =
      { acc with remainingWL := acc.remainingWL ++ [e],
                 train := (acc.train.bookSeat date e.numSeats).2 } := by
  simp [promoteStep, h1, hb, hs, hok]

theorem promoteStep_noBooking (date : Str) (acc : PromoteAcc) (e : WaitlistEntry)
    (h1 : acc.seatsToPromote ≥ e.numSeats)
    (hb : findBooking acc.bookings e.pnr = none) :
    promoteStep date acc e = acc := by
  simp [promoteStep, h1, hb]

theorem promoteStep_notWaitlist (date : Str) (acc : PromoteAcc) (e : WaitlistEntry)
    (b : Booking) (h1 : acc.seatsToPromote ≥ e.numSeats)
    (hb : findBooking acc.bookings e.pnr = some b) (hs : b.status ≠ sWaitlist) :
    promoteStep date acc e = acc := by
  simp [promoteStep, h1, hb, hs]

theorem promoteStep_noFit (date : Str) (acc : PromoteAcc) (e : WaitlistEntry)
    (h1 : ¬ acc.seatsToPromote ≥ e.numSeats) :
    promoteStep date acc e = { acc with remainingWL := acc.remainingWL ++ [e] } := by
  simp [promoteStep, h1]

theorem promoteStep_remaining (date : Str) (acc : PromoteAcc) (e : WaitlistEntry) :
    (promoteStep date acc e).remainingWL = acc.remainingWL ∨
    (promoteStep date acc e).remainingWL = acc.remainingWL ++ [e] := by
  by_cases h1 : acc.seatsToPromote ≥ e.numSeats
  · rcases hb : findBooking acc.bookings e.pnr with _ | b
    · rw [promoteStep_noBooking date acc e h1 hb]; exact Or.inl rfl
    · by_cases hs : b.status = sWaitlist
      · by_cases hok : (acc.train.bookSeat date e.numSeats).1 = true
        · rw [promoteStep_promote date acc e b h1 hb hs hok]; exact Or.inl rfl
        · rw [promoteStep_bookfail date acc e b h1 hb hs (by simpa using hok)]
          exact Or.inr rfl
      · rw [promoteStep_notWaitlist date acc e b h1 hb hs]; exact Or.inl rfl
  · rw [promoteStep_noFit date acc e h1]; exact Or.inr rfl

theorem promoteStep_seats (date : Str) (acc : PromoteAcc) (e : WaitlistEntry) :
    (promoteStep date acc e).seatsToPromote = acc.seatsToPromote ∨
    (promoteStep date acc e).seatsToPromote = acc.seatsToPromote - e.numSeats := by
  by_cases h1 : acc.seatsToPromote ≥ e.numSeats
  · rcases hb : findBooking acc.bookings e.pnr with _ | b
    · rw [promoteStep_noBooking date acc e h1 hb]; exact Or.inl rfl
    · by_cases hs : b.status = sWaitlist
      · by_cases hok : (acc.train.bookSeat date e.numSeats).1 = true
        · rw [promoteStep_promote date acc e b h1 hb hs hok]; exact Or.inr rfl
        · rw [promoteStep_bookfail date acc e b h1 hb hs (by simpa using hok)]
          exact Or.inl rfl
      · rw [promoteStep_notWaitlist date acc e b h1 hb hs]; exact Or.inl rfl
  · rw [promoteStep_noFit date acc e h1]; exact Or.inl rfl

theorem promoteFold_remaining (date : Str) :
    ∀ (q : List WaitlistEntry) (acc : PromoteAcc),
      ∃ r, (q.foldl (promoteStep date) acc).remainingWL = acc.remainingWL ++ r ∧
        r.Sublist q := by
  intro q
  induction q with
  | nil => intro acc; exact ⟨[], by simp, List.nil_sublist []⟩
  | cons e rest ih =>
    intro acc
    obtain ⟨r, h1, h2⟩ := ih (promoteStep date acc e)
    rcases promoteStep_remaining date acc e with h | h
    · refine ⟨r, ?_, List.Sublist.cons e h2⟩
      simpa [List.foldl_cons, h] using h1
    · refine ⟨e :: r, ?_, List.Sublist.cons₂ e h2⟩
      simp only [List.foldl_cons, h1, h]
      simp

theorem bookSeatAux_false (date : Str) (c : Int) :
    ∀ (sm : List SeatAllocation) (ok : Bool) (sm' : List SeatAllocation),
      bookSeatAux date c sm = some (ok, sm') → ok = false → sm' = sm := by
  intro sm
  induction sm with
  | nil => intro ok sm' h; simp [bookSeatAux] at h
  | cons a rest ih =>
    intro ok sm' h hok
    unfold bookSeatAux at h
    by_cases hd : a.date = date
    · rw [if_pos hd] at h
      by_cases hge : a.availableSeats ≥ c
      · rw [if_pos hge] at h
        obtain ⟨h1, -⟩ := Prod.mk.injEq .. ▸ Option.some.injEq .. ▸ h
        rw [hok] at h1; cases h1
      · rw [if_neg hge] at h
        obtain ⟨-, h2⟩ := Prod.mk.injEq .. ▸ Option.some.injEq .. ▸ h
        exact h2.symm
    · rw [if_neg hd] at h
      rcases hr : bookSeatAux date c rest with _ | ⟨ok2, rest'⟩
      · rw [hr] at h; simp at h
      · rw [hr] at h
        obtain ⟨h1, h2⟩ := Prod.mk.injEq .. ▸ Option.some.injEq .. ▸ h
        rw [← h2, ih ok2 rest' hr (h1 ▸ hok)]

theorem bookSeat_false (t : Train) (d : Str) (c : Int)
    (h : (t.bookSeat d c).1 = false) : (t.bookSeat d c).2 = t := by
  unfold Train.bookSeat at h ⊢
  rcases haux : bookSeatAux d c t.seatMap with _ | ⟨ok, sm⟩ <;> rw [haux] at h
  · by_cases hcond : (isValidDate d && decide (c ≤ t.totalSeats)) = true
    · simp [hcond] at h
    · simp [hcond]
  · have hsm : sm = t.seatMap :=
      bookSeatAux_false d c t.seatMap ok sm haux h
    show { t with seatMap := sm } = t
    rw [hsm]

theorem promoteStep_not_promoted (date : Str) (acc : PromoteAcc) (e : WaitlistEntry)
    (h : (promoteStep date acc e).promoted = false) :
    acc.promoted = false ∧ (promoteStep date acc e).bookings = acc.bookings ∧
      (promoteStep date acc e).train = acc.train := by
  by_cases h1 : acc.seatsToPromote ≥ e.numSeats
  · rcases hb : findBooking acc.bookings e.pnr with _ | b
    · rw [promoteStep_noBooking date acc e h1 hb] at h ⊢; exact ⟨h, rfl, rfl⟩
    · by_cases hs : b.status = sWaitlist
      · by_cases hok : (acc.train.bookSeat date e.numSeats).1 = true
        · rw [promoteStep_promote date acc e b h1 hb hs hok] at h; cases h
        · have hokf : (acc.train.bookSeat date e.numSeats).1 = false := by
            simpa using hok
          rw [promoteStep_bookfail date acc e b h1 hb hs hokf] at h ⊢
          exact ⟨h, rfl, bookSeat_false acc.train date e.numSeats hokf⟩
      · rw [promoteStep_notWaitlist date acc e b h1 hb hs] at h ⊢
        exact ⟨h, rfl, rfl⟩
  · rw [promoteStep_noFit date acc e h1] at h ⊢
    exact ⟨h, rfl, rfl⟩

theorem promoteFold_not_promoted (date : Str) :
    ∀ (q : List WaitlistEntry) (acc : PromoteAcc),
      (q.foldl (promoteStep date) acc).promoted = false →
      acc.promoted = false ∧
        (q.foldl (promoteStep date) acc).bookings = acc.bookings ∧
        (q.foldl (promoteStep date) acc).train = acc.train := by
  intro q
  induction q with
  | nil => intro acc h; exact ⟨h, rfl, rfl⟩
  | cons e rest ih =>
    intro acc h
    simp only [List.foldl_cons] at h ⊢
    obtain ⟨h1, h2, h3⟩ := ih (promoteStep date acc e) h
    obtain ⟨h4, h5, h6⟩ := promoteStep_not_promoted date acc e h1
    exact ⟨h4, h2.trans h5, h3.trans h6⟩

/-- C4: the promotion pass scans in FIFO order with a running counter. In
the concrete spec scenario (queue `[A:3 seats, B:1 seat]`, 2 available
seats, both bookings live Waitlist records), B is promoted (Confirmed, one
seat committed) and A is retained with its original rank — never the
reverse. In general: an entry whose seat need exceeds the remaining counter
is retained verbatim (appended behind the previously retained entries, so
relative order and ranks are preserved), the counter at each step either
stays or drops by exactly the entry's full `numSeats` (no partial
promotion), and the surviving queue is always a subsequence of the original
queue (no reordering, no renumbering). -/
theorem c4_promotion_fifo_skip_over :
    (promoteWaitlist dJan c4Train 2 [c4BookA, c4BookB] [c4EntryA, c4EntryB] =
      ⟨[c4BookA, c4BookB.setStatus sConfirmed],
       { c4Train with seatMap := [⟨dJan, 1⟩] }, [c4EntryA], true⟩) ∧
    (∀ (date : Str) (acc : PromoteAcc) (e : WaitlistEntry),
      acc.seatsToPromote < e.numSeats →
      promoteStep date acc e = { acc with remainingWL := acc.remainingWL ++ [e] }) ∧
    (∀ (date : Str) (acc : PromoteAcc) (e : WaitlistEntry),
      (promoteStep date acc e).seatsToPromote = acc.seatsToPromote ∨
      (promoteStep date acc e).seatsToPromote = acc.seatsToPromote - e.numSeats) ∧
    (∀ (date : Str) (t : Train) (avail : Int) (bks : List Booking)
      (q : List WaitlistEntry),
      List.Sublist (promoteWaitlist date t avail bks q).queue q) := by
  refine ⟨by decide, ?_, promoteStep_seats, ?_⟩
  · intro date acc e h
    exact promoteStep_noFit date acc e (not_le.mpr h)
  · intro date t avail bks q
    unfold promoteWaitlist
    by_cases h0 : q = [] ∨ avail ≤ 0
    · rw [if_pos h0]
    · rw [if_neg h0]
      by_cases hp : (q.foldl (promoteStep date) ⟨avail, [], bks, t, false⟩).promoted = true
      · rw [if_pos hp]
        obtain ⟨r, h1, h2⟩ := promoteFold_remaining date q ⟨avail, [], bks, t, false⟩
        show (q.foldl (promoteStep date) ⟨avail, [], bks, t, false⟩).remainingWL.Sublist q
        rw [h1]
        simpa using h2
      · rw [if_neg hp]

/-- Witness for `c4_promotion_fifo_skip_over`: the skip-over retention rule
at a concrete accumulator, and the concrete scenario's surviving queue as a
subsequence of the original. -/
theorem c4_promotion_fifo_skip_over_instance :
    promoteStep dJan ⟨2, [], [c4BookA, c4BookB], c4Train, false⟩ c4EntryA =
      { (⟨2, [], [c4BookA, c4BookB], c4Train, false⟩ : PromoteAcc) with
          remainingWL := [] ++ [c4EntryA] } ∧
    List.Sublist
      (promoteWaitlist dJan c4Train 2 [c4BookA, c4BookB] [c4EntryA, c4EntryB]).queue
      [c4EntryA, c4EntryB] :=
  ⟨c4_promotion_fifo_skip_over.2.1 dJan ⟨2, [], [c4BookA, c4BookB], c4Train, false⟩
      c4EntryA (by decide),
   c4_promotion_fifo_skip_over.2.2.2 dJan c4Train 2 [c4BookA, c4BookB]
      [c4EntryA, c4EntryB]⟩

/-- C9: during a promotion pass, an entry that fits the remaining counter
but references a PNR that is missing from the ledger, or whose booking is
not in Waitlist status, is silently dropped: the step neither promotes nor
retains it and changes no other state (the accumulator is returned exactly
as it was). And when a pass promotes nothing, the whole pass is a no-op:
the ledger, the train and the key's queue are returned unchanged. -/
theorem c9_stale_entry_dropped :
    (∀ (date : Str) (acc : PromoteAcc) (e : WaitlistEntry),
      acc.seatsToPromote ≥ e.numSeats →
      findBooking acc.bookings e.pnr = none →
      promoteStep date acc e = acc) ∧
    (∀ (date : Str) (acc : PromoteAcc) (e : WaitlistEntry) (b : Booking),
      acc.seatsToPromote ≥ e.numSeats →
      findBooking acc.bookings e.pnr = some b → b.status ≠ sWaitlist →
      promoteStep date acc e = acc) ∧
    (∀ (date : Str) (t : Train) (avail : Int) (bks : List Booking)
      (q : List WaitlistEntry),
      (promoteWaitlist date t avail bks q).promoted = false →
      promoteWaitlist date t avail bks q = ⟨bks, t, q, false⟩) := by
  refine ⟨promoteStep_noBooking, promoteStep_notWaitlist, ?_⟩
  intro date t avail bks q
  unfold promoteWaitlist
  by_cases h0 : q = [] ∨ avail ≤ 0
  · rw [if_pos h0]; intro _; rfl
  · rw [if_neg h0]
    by_cases hp : (q.foldl (promoteStep date) ⟨avail, [], bks, t, false⟩).promoted = true
    · rw [if_pos hp]; intro h; cases h
    · rw [if_neg hp]
      intro _
      have hf : (q.foldl (promoteStep date) ⟨avail, [], bks, t, false⟩).promoted = false := by
        simpa using hp
      obtain ⟨-, hbk, htr⟩ :=
        promoteFold_not_promoted date q ⟨avail, [], bks, t, false⟩ hf
      rw [hbk, htr]

/-- Witness for `c9_stale_entry_dropped`: a stale entry (PNR absent from the
ledger) that fits five remaining seats is dropped without any other change,
and a pass over a queue holding only that stale entry promotes nothing and
leaves the queue exactly as it was. -/
theorem c9_stale_entry_dropped_instance :
    promoteStep dJan ⟨5, [], [], c4Train, false⟩ ⟨"PX".data, dJan, 1, 1⟩ =
      ⟨5, [], [], c4Train, false⟩ ∧
    promoteWaitlist dJan c4Train 5 [] [⟨"PX".data, dJan, 1, 1⟩] =
      ⟨[], c4Train, [⟨"PX".data, dJan, 1, 1⟩], false⟩ :=
  ⟨c9_stale_entry_dropped.1 dJan ⟨5, [], [], c4Train, false⟩ ⟨"PX".data, dJan, 1, 1⟩
      (by decide) (by decide),
   c9_stale_entry_dropped.2.2 dJan c4Train 5 [] [⟨"PX".data, dJan, 1, 1⟩] (by decide)⟩

-- ### Helper lemmas: availability observation frames

theorem findTrain_number (tNum : Str) :
    ∀ (ts : List Train) (t : Train), findTrain ts tNum = some t →
      t.trainNumber = tNum := by
  intro ts
  induction ts with
  | nil => intro t h; simp [findTrain] at h
  | cons u rest ih =>
    intro t h
    unfold findTrain at h
    by_cases hu : u.trainNumber = tNum
    · rw [if_pos hu] at h
      rcases Option.some.injEq .. ▸ h with rfl
      exact hu
    · rw [if_neg hu] at h
      exact ih t h

theorem getAvailableSeats_trainNumber (t : Train) (d : Str) :
    ((t.getAvailableSeats d).2).trainNumber = t.trainNumber := by
  unfold Train.getAvailableSeats
  rcases lookupAlloc t.seatMap d with _ | a
  · by_cases hv : isValidDate d = true
    · simp [hv]
    · simp [hv]
  · rfl

theorem getAvailableSeats_totalSeats (t : Train) (d : Str) :
    ((t.getAvailableSeats d).2).totalSeats = t.totalSeats := by
  unfold Train.getAvailableSeats
  rcases lookupAlloc t.seatMap d with _ | a
  · by_cases hv : isValidDate d = true
    · simp [hv]
    · simp [hv]
  · rfl

theorem lookupAlloc_append (d : Str) :
    ∀ (sm sm2 : List SeatAllocation),
      lookupAlloc (sm ++ sm2) d =
        match lookupAlloc sm d with
        | some a => some a
        | none => lookupAlloc sm2 d := by
  intro sm sm2
  induction sm with
  | nil => rfl
  | cons a rest ih =>
    by_cases hd : a.date = d
    · show (if a.date = d then some a else lookupAlloc (rest ++ sm2) d) =
        match (if a.date = d then some a else lookupAlloc rest d) with
        | some a => some a
        | none => lookupAlloc sm2 d
      rw [if_pos hd, if_pos hd]
    · show (if a.date = d then some a else lookupAlloc (rest ++ sm2) d) =
        match (if a.date = d then some a else lookupAlloc rest d) with
        | some a => some a
        | none => lookupAlloc sm2 d
      rw [if_neg hd, if_neg hd]
      exact ih

theorem availObs_getAvailableSeats (t : Train) (d d' : Str) :
    availObs ((t.getAvailableSeats d).2) d' = availObs t d' := by
  unfold Train.getAvailableSeats
  rcases h : lookupAlloc t.seatMap d with _ | a
  · by_cases hv : isValidDate d = true
    · simp only [hv, if_true]
      unfold availObs
      rw [lookupAlloc_append d']
      rcases h2 : lookupAlloc t.seatMap d' with _ | a2
      · by_cases hdd : d = d'
        · subst hdd
          simp [lookupAlloc, hv]
        · simp [lookupAlloc, hdd, hv]
      · simp
    · simp [hv]
  · rfl

theorem trainAvail_updateTrain :
    ∀ (ts : List Train) (t t' : Train),
      findTrain ts t'.trainNumber = some t →
      (∀ d, availObs t' d = availObs t d) →
      ∀ (tn d : Str), trainAvail (updateTrain ts t') tn d = trainAvail ts tn d := by
  intro ts
  induction ts with
  | nil => intro t t' hfind _ tn d; simp [findTrain] at hfind
  | cons u rest ih =>
    intro t t' hfind hobs tn d
    unfold updateTrain
    by_cases hu : u.trainNumber = t'.trainNumber
    · rw [if_pos hu]
      have ht : t = u := by
        unfold findTrain at hfind
        rw [if_pos hu] at hfind
        exact (Option.some.injEq .. ▸ hfind).symm
      subst ht
      unfold trainAvail findTrain
      by_cases htn : t'.trainNumber = tn
      · rw [if_pos htn, if_pos (hu.trans htn)]
        simp [hobs d]
      · rw [if_neg htn, if_neg (fun hh => htn (hu ▸ hh))]
    · rw [if_neg hu]
      have hrest : findTrain rest t'.trainNumber = some t := by
        unfold findTrain at hfind
        rwa [if_neg hu] at hfind
      unfold trainAvail findTrain
      by_cases htn : u.trainNumber = tn
      · rw [if_pos htn, if_pos htn]
      · rw [if_neg htn, if_neg htn]
        exact ih t t' hrest hobs tn d

/-- C6: when the external payment gate declines — in both the
sufficient-capacity path and the pay-to-waitlist path — `bookSingleTicket`
creates no ledger record, leaves the waitlist map untouched, changes no
observable seat availability for any `(train, date)` pair, and the only
state consumed is the issued PNR: provided the train exists, the counter is
one higher (and the issued value is bound to no booking, since the ledger
is unchanged). -/
theorem c6_payment_declined_frame (s : RailwayState) (tNum date : Str)
    (ps : List Passenger) :
    (bookSingleTicket false s tNum date ps).bookings = s.bookings ∧
    (bookSingleTicket false s tNum date ps).waitlist = s.waitlist ∧
    (∀ (tn d : Str),
      trainAvail (bookSingleTicket false s tNum date ps).trains tn d =
        trainAvail s.trains tn d) ∧
    ((findTrain s.trains tNum).isSome = true →
      (bookSingleTicket false s tNum date ps).pnrCounter = s.pnrCounter + 1) := by
  rcases hf : findTrain s.trains tNum with _ | t
  · have hres : bookSingleTicket false s tNum date ps = s := by
      unfold bookSingleTicket
      rw [hf]
    rw [hres]
    refine ⟨rfl, rfl, fun tn d => rfl, ?_⟩
    intro hsome
    simp at hsome
  · have hres : bookSingleTicket false s tNum date ps =
        { s with trains := updateTrain s.trains (t.getAvailableSeats date).2,
                 pnrCounter := s.pnrCounter + 1 } := by
      unfold bookSingleTicket
      rw [hf]
      by_cases hcap : (t.getAvailableSeats date).1 ≥ (ps.length : Int)
      · simp [hcap]
      · simp [hcap]
    have hnum : ((t.getAvailableSeats date).2).trainNumber = tNum :=
      (getAvailableSeats_trainNumber t date).trans (findTrain_number tNum s.trains t hf)
    have hframe : ∀ (tn d : Str),
        trainAvail (updateTrain s.trains (t.getAvailableSeats date).2) tn d =
          trainAvail s.trains tn d := by
      intro tn d
      exact trainAvail_updateTrain s.trains t ((t.getAvailableSeats date).2)
        (hnum ▸ hf) (fun d2 => availObs_getAvailableSeats t date d2) tn d
    rw [hres]
    exact ⟨rfl, rfl, hframe, fun _ => rfl⟩

/-- Witness for `c6_payment_declined_frame`: a declined payment on a
concrete state leaves the ledger and waitlist as they were and only bumps
the PNR counter. -/
theorem c6_payment_declined_frame_instance :
    (bookSingleTicket false c6State tnET dJan [pAlice]).bookings = c6State.bookings ∧
    (bookSingleTicket false c6State tnET dJan [pAlice]).pnrCounter =
      c6State.pnrCounter + 1 ∧
    trainAvail (bookSingleTicket false c6State tnET dJan [pAlice]).trains tnET dJan =
      trainAvail c6State.trains tnET dJan :=
  ⟨(c6_payment_declined_frame c6State tnET dJan [pAlice]).1,
   (c6_payment_declined_frame c6State tnET dJan [pAlice]).2.2.2 (by decide),
   (c6_payment_declined_frame c6State tnET dJan [pAlice]).2.2.1 tnET dJan⟩

/-- C7: `placeOnWaitlist` assigns rank 1 when the key's queue is empty and
otherwise the last entry's rank plus one (computed from the current last
entry, not the queue length), appends the new entry at the tail with that
rank, reports the rank, touches no other key, and preserves strictly
increasing rank order — so ranks within a key keep increasing even after
earlier entries were removed by promotion. -/
theorem c7_enqueue_rank (w : Str → List WaitlistEntry) (b : Booking) :
    (w (wlKey b.trainNumber b.dateOfJourney) = [] → (placeOnWaitlist w b).1 = 1) ∧
    (∀ e, (w (wlKey b.trainNumber b.dateOfJourney)).getLast? = some e →
      (placeOnWaitlist w b).1 = e.rank + 1) ∧
    (placeOnWaitlist w b).2 (wlKey b.trainNumber b.dateOfJourney) =
      w (wlKey b.trainNumber b.dateOfJourney) ++
        [⟨b.pnrNumber, b.dateOfJourney, b.getNumPassengers, (placeOnWaitlist w b).1⟩] ∧
    (∀ k, k ≠ wlKey b.trainNumber b.dateOfJourney → (placeOnWaitlist w b).2 k = w k) ∧
    (List.Chain' (fun x y => x.rank < y.rank)
        (w (wlKey b.trainNumber b.dateOfJourney)) →
      List.Chain' (fun x y => x.rank < y.rank)
        ((placeOnWaitlist w b).2 (wlKey b.trainNumber b.dateOfJourney))) := by
  refine ⟨?_, ?_, ?_, ?_, ?_⟩
  · intro h
    simp [placeOnWaitlist, h]
  · intro e he
    simp [placeOnWaitlist, he]
  · simp [placeOnWaitlist, Function.update_same]
  · intro k hk
    simp only [placeOnWaitlist]
    exact Function.update_noteq hk _ _
  · intro hch
    simp only [placeOnWaitlist, Function.update_same]
    rw [List.chain'_append]
    refine ⟨hch, by simp, ?_⟩
    intro x hx y hy
    simp only [List.head?_cons, Option.mem_def, Option.some.injEq] at hy
    rw [Option.mem_def] at hx
    subst hy
    simp [hx]

/-- Witness for `c7_enqueue_rank`: enqueueing behind a concrete queue whose
last entry has rank 2 assigns rank 3, keeps strict rank order, and leaves
other keys alone. -/
theorem c7_enqueue_rank_instance :
    (placeOnWaitlist c7Queue c7Booking).1 =
      (⟨"P1".data, dJan, 2, 2⟩ : WaitlistEntry).rank + 1 ∧
    List.Chain' (fun x y => x.rank < y.rank)
      ((placeOnWaitlist c7Queue c7Booking).2 (wlKey c7Booking.trainNumber c7Booking.dateOfJourney)) ∧
    (placeOnWaitlist c7Queue c7Booking).2 ("ZZ".data) = c7Queue ("ZZ".data) :=
  ⟨(c7_enqueue_rank c7Queue c7Booking).2.1 ⟨"P1".data, dJan, 2, 2⟩ (by decide),
   (c7_enqueue_rank c7Queue c7Booking).2.2.2.2
     (by rw [show wlKey c7Booking.trainNumber c7Booking.dateOfJourney = keyET from rfl]
         simp [c7Queue, Function.update_same]),
   (c7_enqueue_rank c7Queue c7Booking).2.2.2.1 ("ZZ".data) (by decide)⟩

-- ### C5 amended: what the PNR generator does guarantee

theorem issueN_snd (k : Nat) : ∀ c : Int, (issueN c k).2 = c + k := by
  induction k with
  | zero => intro c; simp [issueN]
  | succ k ih =>
    intro c
    show (issueN (c + 1) k).2 = c + (k + 1 : Nat)
    rw [ih (c + 1)]
    push_cast
    ring

theorem issueN_mem (k : Nat) :
    ∀ c : Int, ∀ p ∈ (issueN c k).1, c < p ∧ p ≤ c + k := by
  induction k with
  | zero => intro c p hp; simp [issueN] at hp
  | succ k ih =>
    intro c p hp
    simp only [issueN, List.mem_cons] at hp
    rcases hp with rfl | hp
    · constructor
      · omega
      · have : (0 : Int) ≤ (k : Int) := Int.ofNat_nonneg k
        push_cast
        omega
    · obtain ⟨h1, h2⟩ := ih (c + 1) p hp
      constructor
      · omega
      · push_cast
        omega

theorem issueN_chain (k : Nat) :
    ∀ c : Int, List.Chain' (fun x y => x < y) (issueN c k).1 := by
  induction k with
  | zero => intro c; simp [issueN]
  | succ k ih =>
    intro c
    show List.Chain' (fun x y => x < y) ((c + 1) :: (issueN (c + 1) k).1)
    rw [List.chain'_cons']
    refine ⟨?_, ih (c + 1)⟩
    intro y hy
    have hmem : y ∈ (issueN (c + 1) k).1 :=
      List.mem_of_mem_head? hy
    exact (issueN_mem k (c + 1) y hmem).1

theorem loadPNR_ge (stored : Option Int) : pnrFloor ≤ loadPNR stored := by
  unfold loadPNR
  rcases stored with _ | v
  · simp
  · simp only
    split <;> omega

theorem loadPNR_some_ge (v : Int) : v ≤ loadPNR (some v) := by
  unfold loadPNR
  simp only
  split <;> omega

/-- C5 amended: PNR issuance is strictly increasing within one run; after
every load the counter is at least the floor (a stored value below the
floor, or unreadable storage, is clamped up), so every issued PNR exceeds
the floor; and values are strictly increasing across a restart provided the
storage read back at the restart is at least the previous run's final
persisted counter. (When the storage regresses below that counter — e.g. a
deleted-and-recreated file below the floor — already-issued values are
reissued; see the counterexample.) -/
theorem c5_pnr_monotone_with_floor :
    (∀ stored, pnrFloor ≤ loadPNR stored) ∧
    (∀ stored k, List.Chain' (fun x y => x < y) (genRun stored k).1) ∧
    (∀ stored k, ∀ p ∈ (genRun stored k).1, pnrFloor < p) ∧
    (∀ stored k (v : Int) (j : Nat), (genRun stored k).2 ≤ v →
      ∀ p ∈ (genRun stored k).1, ∀ q ∈ (genRun (some v) j).1, p < q) := by
  refine ⟨loadPNR_ge, ?_, ?_, ?_⟩
  · intro stored k
    exact issueN_chain k (loadPNR stored)
  · intro stored k p hp
    exact lt_of_le_of_lt (loadPNR_ge stored) (issueN_mem k (loadPNR stored) p hp).1
  · intro stored k v j hv p hp q hq
    have h1 := (issueN_mem k (loadPNR stored) p hp).2
    have h2 := (issueN_mem j (loadPNR (some v)) q hq).1
    have h3 : (genRun stored k).2 = loadPNR stored + k := issueN_snd k (loadPNR stored)
    have h4 : v ≤ loadPNR (some v) := loadPNR_some_ge v
    rw [h3] at hv
    omega

/-- Witness for `c5_pnr_monotone_with_floor`: floor clamping on a low stored
value, a concrete strictly increasing run, every issued PNR above the
floor, and cross-restart increase when the storage did not regress. -/
theorem c5_pnr_monotone_with_floor_instance :
    pnrFloor ≤ loadPNR (some 5) ∧
    List.Chain' (fun x y => x < y) (genRun none 2).1 ∧
    pnrFloor < pnrFloor + 1 ∧
    pnrFloor + 1 < pnrFloor + 6 :=
  ⟨c5_pnr_monotone_with_floor.1 (some 5),
   c5_pnr_monotone_with_floor.2.1 none 2,
   c5_pnr_monotone_with_floor.2.2.1 none 1 (pnrFloor + 1) (by decide),
   c5_pnr_monotone_with_floor.2.2.2 none 1 (pnrFloor + 5) 1 (by decide)
     (pnrFloor + 1) (by decide) (pnrFloor + 6) (by decide)⟩
